import Mathlib

/-
  Verification of the LSP client core of oh-my-opencode.

  Shallow embedding of:
  - the byte-stream framing algorithm of LSPClient.processBuffer /
    LSPClient.findSequence (src/tools/lsp/client.ts),
  - the pending-request table and message dispatch (client.ts),
  - server-initiated request handling (LSPClient.handleServerRequest),
  - the session orchestrator withLspClient (src/tools/lsp/utils.ts),
  - the workspace resolver findWorkspaceRoot (utils.ts),
  - server resolution findServerForExtension / isServerInstalled
    (src/tools/lsp/config.ts),
  - the formatting / filtering layer (formatHoverResult,
    filterDiagnosticsBySeverity, utils.ts).

  Byte buffers are modelled as List Nat (each element one byte value).
-/

namespace Lsp

/-! ### Byte-stream framing (client.ts lines 54 to 115) -/

/-- Boolean check that the first list occurs at the front of the second,
mirroring the inner j-loop of LSPClient.findSequence (element-by-element
equality of needle bytes against the haystack at one offset). -/
def seqPrefix : List Nat → List Nat → Bool
  | [], _ => true
  | _ :: _, [] => false
  | a :: as, b :: bs => a == b && seqPrefix as bs

/-- Index of the first occurrence of needle in haystack, mirroring
LSPClient.findSequence (client.ts lines 54 to 62); none models the
source returning -1. -/
def findSequence : List Nat → List Nat → Option Nat
  | haystack, needle =>
    if seqPrefix needle haystack then some 0
    else
      match haystack with
      | [] => none
      | _ :: t => Option.map (· + 1) (findSequence t needle)

/-- Byte values of the literal "Content-Length:", the CONTENT_LENGTH
constant of processBuffer (client.ts line 66). -/
def contentLengthNeedle : List Nat :=
  [67, 111, 110, 116, 101, 110, 116, 45, 76, 101, 110, 103, 116, 104, 58]

/-- Byte values of CRLFCRLF (client.ts line 67). -/
def crlfcrlfBytes : List Nat := [13, 10, 13, 10]

/-- Byte values of LFLF (client.ts line 68). -/
def lflfBytes : List Nat := [10, 10]

/-- Whitespace byte per the regex class backslash-s restricted to ASCII
(space, tab, vertical tab, form feed, carriage return, line feed). -/
def isWsByte (b : Nat) : Bool :=
  b == 32 || b == 9 || b == 10 || b == 11 || b == 12 || b == 13

/-- Decimal digit byte per the regex class backslash-d. -/
def isDigitByte (b : Nat) : Bool :=
  decide (48 ≤ b) && decide (b ≤ 57)

/-- ASCII lower-casing of one byte, for the case-insensitive regex flag. -/
def lowerByte (b : Nat) : Nat :=
  if 65 ≤ b ∧ b ≤ 90 then b + 32 else b

/-- Numeric value of a list of ASCII digit bytes, mirroring
parseInt(match[1], 10) applied to the digits captured by the regex. -/
def digitsVal (ds : List Nat) : Nat :=
  ds.foldl (fun acc d => acc * 10 + (d - 48)) 0

/-- Attempted match of the header regex at the front of the byte list:
case-insensitive "Content-Length:" followed by optional whitespace and a
nonempty digit run (the regex in client.ts line 84). Whitespace and digit
bytes are disjoint, so the greedy star needs no backtracking. -/
def matchCLAt (s : List Nat) : Option Nat :=
  if seqPrefix (contentLengthNeedle.map lowerByte) (s.map lowerByte) then
    let rest := (s.drop 15).dropWhile isWsByte
    let ds := rest.takeWhile isDigitByte
    if ds.isEmpty then none else some (digitsVal ds)
  else none

/-- First match of the header regex anywhere in the byte list, mirroring
header.match(... Content-Length ...) of client.ts line 84: the regex engine
tries each start position left to right. -/
def regexContentLength : List Nat → Option Nat
  | [] => none
  | s@(_ :: t) =>
    match matchCLAt s with
    | some n => some n
    | none => regexContentLength t

/-- Fuelled version of the while loop of LSPClient.processBuffer
(client.ts lines 70 to 115) restricted to its framing effect: the list of
extracted payload byte slices, in extraction order, together with the
buffer left when the loop breaks. Each productive iteration removes at
least one byte, so fuel larger than the buffer length is sufficient. -/
def extractLoop : Nat → List Nat → List (List Nat) × List Nat
  | 0, buf => ([], buf)
  | Nat.succ fuel, buf0 =>
    match findSequence buf0 contentLengthNeedle with
    | none => ([], buf0)
    | some headerStart =>
      let buf := buf0.drop headerStart
      let sep : Option Nat × Nat :=
        match findSequence buf crlfcrlfBytes with
        | some e => (some e, 4)
        | none => (findSequence buf lflfBytes, 2)
      match sep with
      | (none, _) => ([], buf)
      | (some headerEnd, sepLen) =>
        match regexContentLength (buf.take headerEnd) with
        | none => ([], buf)
        | some len =>
          if buf.length < headerEnd + sepLen + len then ([], buf)
          else
            let content := (buf.drop (headerEnd + sepLen)).take len
            let res := extractLoop fuel (buf.drop (headerEnd + sepLen + len))
            (content :: res.1, res.2)

/-- One call of LSPClient.processBuffer on a buffer: the while loop runs
until a break, which takes at most length-plus-one iterations. -/
def processBuffer (buf : List Nat) : List (List Nat) × List Nat :=
  extractLoop (buf.length + 1) buf

/-- Decimal ASCII digit computation with structural fuel; the fuel is
always instantiated strictly above the number, so it never runs out. -/
def natDigitsAux : Nat → Nat → List Nat
  | 0, _ => []
  | fuel + 1, n =>
    if n < 10 then [48 + n]
    else natDigitsAux fuel (n / 10) ++ [48 + n % 10]

/-- Decimal ASCII digit bytes of a natural number (most significant
first), used to build well-formed Content-Length headers. -/
def natDigits (n : Nat) : List Nat := natDigitsAux (n + 1) n

/-- Header bytes "Content-Length: " followed by the decimal digits of n. -/
def clHeader (n : Nat) : List Nat :=
  contentLengthNeedle ++ (32 :: natDigits n)

/-- Terminator bytes of one frame: CRLFCRLF when the flag is true,
LFLF otherwise. -/
def sepBytes : Bool → List Nat
  | true => crlfcrlfBytes
  | false => lflfBytes

/-- One complete wire frame: a Content-Length header declaring exactly the
payload length, a terminator in either convention, and the payload. -/
def mkFrame (crlf : Bool) (payload : List Nat) : List Nat :=
  clHeader payload.length ++ sepBytes crlf ++ payload

/-- Concatenation of complete frames into one buffer. -/
def framesBytes : List (Bool × List Nat) → List Nat
  | [] => []
  | f :: rest => mkFrame f.1 f.2 ++ framesBytes rest

/-- Condition under which the terminator search of processBuffer is
reliable: whenever a frame uses the LFLF convention, the CRLFCRLF byte
sequence does not occur anywhere in the buffer from that frame on. -/
def lflfSafe : List (Bool × List Nat) → Bool
  | [] => true
  | f :: rest =>
    (f.1 || (findSequence (framesBytes (f :: rest)) crlfcrlfBytes).isNone)
      && lflfSafe rest

/-! ### JSON values and message dispatch (client.ts lines 95 to 158) -/

/-- Minimal JSON value type for payloads, ids, params and results. -/
inductive Json
  | null
  | bool (b : Bool)
  | num (n : Int)
  | str (s : String)
  | arr (xs : List Json)
  | obj (fields : List (String × Json))

/-- Identifier of a JSON-RPC message: number or string. -/
inductive JsonId
  | num (n : Nat)
  | str (s : String)
deriving DecidableEq

/-- Parsed incoming message, as inspected by processBuffer lines 98 to
111: presence of the id and method keys, the error flag, and the params
and result payloads. -/
structure IncomingMsg where
  id : Option JsonId
  method : Option String
  isError : Bool := false
deriving DecidableEq

/-- Membership test of a JS Map keyed by numbers (pending.has). -/
def mapHas {α : Type} (m : List (Nat × α)) (k : Nat) : Bool :=
  m.any (fun e => e.1 == k)

/-- Lookup in a JS Map keyed by numbers (pending.get). -/
def mapGet {α : Type} (m : List (Nat × α)) (k : Nat) : Option α :=
  (m.find? (fun e => e.1 == k)).map (fun e => e.2)

/-- Deletion from a JS Map keyed by numbers (pending.delete). -/
def mapDelete {α : Type} (m : List (Nat × α)) (k : Nat) : List (Nat × α) :=
  m.filter (fun e => e.1 != k)

/-- Insertion into a JS Map keyed by numbers (pending.set): overwrites in
place when the key is present, appends otherwise. -/
def mapSet {α : Type} (m : List (Nat × α)) (k : Nat) (v : α) : List (Nat × α) :=
  if m.any (fun e => e.1 == k) then
    m.map (fun e => if e.1 == k then (k, v) else e)
  else m ++ [(k, v)]

/-- Canned answer of LSPClient.handleServerRequest (client.ts lines 150
to 158) for a server-initiated method: some result to respond with, or
none when the method is unrecognized (no response sent). The params of
the incoming request are ignored by the source (parameter _params). -/
def handleServerRequest (method : String) : Option Json :=
  if method == "workspace/configuration" then some (Json.arr [Json.obj []])
  else if method == "client/registerCapability" then some Json.null
  else if method == "window/workDoneProgress/create" then some Json.null
  else none

/-- Observable effect of dispatching one incoming message. -/
inductive ClientEffect (α : Type)
  | wroteResponse (id : JsonId) (result : Json)
  | resolved (h : α)
  | rejected (h : α)

/-- Dispatch of one parsed message against the pending table, mirroring
client.ts lines 98 to 111: a message with both id and method is a server
request (answered via respond, keyed to the incoming id); a message with
a numeric id, no method and a matching pending entry consumes that entry
and invokes its handler (reject on error, resolve otherwise); everything
else is dropped. String ids never match the number-keyed pending map. -/
def dispatchMessage {α : Type} (pending : List (Nat × α)) (m : IncomingMsg) :
    List (Nat × α) × List (ClientEffect α) :=
  match m.id with
  | none => (pending, [])
  | some mid =>
    match m.method with
    | some meth =>
      (pending,
        match handleServerRequest meth with
        | some ans => [ClientEffect.wroteResponse mid ans]
        | none => [])
    | none =>
      match mid with
      | JsonId.str _ => (pending, [])
      | JsonId.num k =>
        if mapHas pending k then
          match mapGet pending k with
          | some h =>
            (mapDelete pending k,
              [if m.isError then ClientEffect.rejected h else ClientEffect.resolved h])
          | none => (mapDelete pending k, [])
        else (pending, [])

/-- Firing of the timeout registered by LSPClient.send (client.ts lines
127 to 132): when the entry is still pending it is removed and the caller
rejected with a timeout error (flag true); otherwise nothing happens. -/
def handleTimeout {α : Type} (pending : List (Nat × α)) (k : Nat) :
    List (Nat × α) × Bool :=
  if mapHas pending k then (mapDelete pending k, true) else (pending, false)

/-- Registration done by LSPClient.send (client.ts lines 120 and 126):
the next id is one more than the current counter, and the handler is
stored under that id. -/
def sendRegister {α : Type} (requestId : Nat) (pending : List (Nat × α)) (h : α) :
    Nat × List (Nat × α) :=
  (requestId + 1, mapSet pending (requestId + 1) h)

/-- Parsed response message carrying id k, used to feed dispatch. -/
def respMsg (k : Nat) (isErr : Bool) : IncomingMsg :=
  { id := some (JsonId.num k), method := none, isError := isErr }

/-- Modelled from the spec: the number of configuration scopes requested
by a workspace/configuration server request, the length of the items
array of its params; the spec says the answer carries one empty object
per requested scope. The source code has no such notion (it ignores the
params), which is what the related claim is checked against. -/
def requestedScopeCount (params : Json) : Nat :=
  match params with
  | Json.obj fields =>
    match (fields.find? (fun f => f.1 == "items")).map (fun f => f.2) with
    | some (Json.arr xs) => xs.length
    | _ => 0
  | _ => 0

/-- Modelled from the spec: the answer the spec describes for a
workspace/configuration request, one empty object per requested scope. -/
def specConfigurationAnswer (params : Json) : Json :=
  Json.arr (List.replicate (requestedScopeCount params) (Json.obj []))

/-! ### Session orchestrator withLspClient (utils.ts lines 29 to 49) -/

/-- Lifecycle action performed on the protocol client. -/
inductive LspEvent
  | start
  | init
  | runOperation
  | stop
deriving DecidableEq

/-- Outcome switches of one withLspClient call: whether server resolution
succeeds and whether each awaited phase throws. -/
structure SessionScenario where
  serverFound : Bool
  startOk : Bool
  initOk : Bool
  opOk : Bool
deriving DecidableEq

/-- Trace semantics of withLspClient (utils.ts lines 29 to 49): the list
of client lifecycle actions performed, in order, and whether the call
returns normally (false means the error propagates to the caller). The
source awaits client.start() and client.initialize() before entering the
try block whose finally clause awaits client.stop(); client.stop never
throws (its shutdown request is wrapped in try/catch before the
unconditional kill). -/
def withLspClient (s : SessionScenario) : List LspEvent × Bool :=
  if !s.serverFound then ([], false)
  else if !s.startOk then ([LspEvent.start], false)
  else if !s.initOk then ([LspEvent.start, LspEvent.init], false)
  else if !s.opOk then
    ([LspEvent.start, LspEvent.init, LspEvent.runOperation, LspEvent.stop], false)
  else
    ([LspEvent.start, LspEvent.init, LspEvent.runOperation, LspEvent.stop], true)

/-! ### Workspace resolver findWorkspaceRoot (utils.ts lines 8 to 27) -/

/-- Abstract filesystem: existence of a path and whether an existing path
is a directory. Paths are lists of components below the root, so the
filesystem root is the empty list. -/
structure FileSystem where
  pathExists : List String → Bool
  isDirectory : List String → Bool

/-- Parent directory, mirroring path.dirname on absolute paths: the root
is its own parent. -/
def dirname : List String → List String
  | [] => []
  | ps => ps.dropLast

/-- Project marker names checked at each level (utils.ts line 15). -/
def markers : List String :=
  [".git", "package.json", "pyproject.toml", "Cargo.toml", "go.mod",
   "pom.xml", "build.gradle"]

/-- Check whether one directory contains any project marker, mirroring
the inner for loop of findWorkspaceRoot (utils.ts lines 18 to 22). -/
def hasMarker (fs : FileSystem) (dir : List String) : Bool :=
  markers.any (fun m => fs.pathExists (dir ++ [m]))

/-- The while loop of findWorkspaceRoot (utils.ts lines 17 to 24): walk
from dir up to but excluding the root, returning the first directory
containing a marker, or none when the root is reached. -/
def walkUp (fs : FileSystem) (dir : List String) : Option (List String) :=
  match dir with
  | [] => none
  | x :: rest =>
    if hasMarker fs (x :: rest) then some (x :: rest)
    else walkUp fs (List.dropLast (x :: rest))
termination_by dir.length
decreasing_by
  simp [List.length_dropLast]

/-- Result of statSync(p).isDirectory(): throws (error) when the path
does not exist. -/
def statIsDirectory (fs : FileSystem) (p : List String) : Except String Bool :=
  if fs.pathExists p then Except.ok (fs.isDirectory p) else Except.error "ENOENT"

/-- Embedding of findWorkspaceRoot (utils.ts lines 8 to 27) on an already
resolved absolute path. The Except layer records the possibility of a
thrown filesystem error; the short-circuit of line 11 calls statSync only
on existing paths. On reaching the root without a marker the fallback is
the parent of the original resolved path (line 26). -/
def findWorkspaceRoot (fs : FileSystem) (filePath : List String) :
    Except String (List String) :=
  match (if !(fs.pathExists filePath) then Except.ok (dirname filePath)
         else match statIsDirectory fs filePath with
              | Except.error e => Except.error e
              | Except.ok isDir =>
                Except.ok (if !isDir then dirname filePath else filePath)) with
  | Except.error e => Except.error e
  | Except.ok dir =>
    match walkUp fs dir with
    | some d => Except.ok d
    | none => Except.ok (dirname filePath)

/-- Directories visited by the walk, nearest first: the start directory
and its ancestors, the filesystem root excluded. -/
def ancestorChain (d : List String) : List (List String) :=
  match d with
  | [] => []
  | x :: rest => (x :: rest) :: ancestorChain (List.dropLast (x :: rest))
termination_by d.length
decreasing_by
  simp [List.length_dropLast]

/-- Start directory of the walk: the resolved path itself when it is an
existing directory, its parent otherwise. -/
def startDir (fs : FileSystem) (filePath : List String) : List String :=
  if fs.pathExists filePath && fs.isDirectory filePath then filePath
  else dirname filePath

/-! ### Server registry (config.ts lines 198 to 318) -/

/-- Resolved server as built by config.ts (the env and initialization
payloads are carried through resolution untouched and are irrelevant to
the resolution claims, so they are elided here). -/
structure ResolvedServer where
  id : String
  command : List String
  extensions : List String
deriving DecidableEq

/-- Built-in server table entry (command and extensions). -/
structure BuiltinServerConfig where
  command : List String
  extensions : List String
deriving DecidableEq

/-- User configuration entry under the lsp key of opencode.json; none
models an absent (or null) field. -/
structure OpencodeJsonLspEntry where
  disabled : Bool := false
  command : Option (List String) := none
  extensions : Option (List String) := none
deriving DecidableEq

/-- Search-path environment for isServerInstalled: the PATH directories
in order, file existence, and path joining. -/
structure SysEnv where
  pathDirs : List String
  fileExists : String → Bool
  joinPath : String → String → String

/-- Embedding of isServerInstalled (config.ts lines 304 to 318): an empty
command vector is not installed; otherwise the first token must exist
under some directory of the search path. -/
def isServerInstalled (env : SysEnv) (command : List String) : Bool :=
  match command with
  | [] => false
  | cmd :: _ => env.pathDirs.any (fun p => env.fileExists (env.joinPath p cmd))

/-- Insertion into a JS Map keyed by strings (Map.set semantics). -/
def mapSetS {α : Type} (m : List (String × α)) (k : String) (v : α) :
    List (String × α) :=
  if m.any (fun e => e.1 == k) then
    m.map (fun e => if e.1 == k then (k, v) else e)
  else m ++ [(k, v)]

/-- Embedding of getUserLspServers (config.ts lines 252 to 272): the
configuration entries in order, skipping disabled entries and entries
lacking a command or extensions field, collected into an insertion-order
map from id to resolved server. -/
def getUserLspServers (cfg : List (String × OpencodeJsonLspEntry)) :
    List (String × ResolvedServer) :=
  cfg.foldl
    (fun m p =>
      if p.2.disabled then m
      else
        match p.2.command, p.2.extensions with
        | some c, some xs =>
          mapSetS m p.1 { id := p.1, command := c, extensions := xs }
        | _, _ => m)
    []

/-- Embedding of getDisabledServers (config.ts lines 237 to 250): ids of
entries marked disabled. -/
def getDisabledServers (cfg : List (String × OpencodeJsonLspEntry)) :
    List String :=
  (cfg.filter (fun p => p.2.disabled)).map (fun p => p.1)

/-- First for loop of findServerForExtension (config.ts lines 278 to
282): first user server, in map order, handling the extension and
installed. -/
def firstUserServer (env : SysEnv) (ext : String) :
    List ResolvedServer → Option ResolvedServer
  | [] => none
  | s :: rest =>
    if s.extensions.contains ext && isServerInstalled env s.command then some s
    else firstUserServer env ext rest

/-- Second for loop of findServerForExtension (config.ts lines 284 to
295): first built-in, in table order, skipping disabled or user-shadowed
ids, handling the extension and installed. -/
def firstBuiltinServer (env : SysEnv) (ext : String) (disabled : List String)
    (userIds : List String) :
    List (String × BuiltinServerConfig) → Option ResolvedServer
  | [] => none
  | b :: rest =>
    if disabled.contains b.1 then firstBuiltinServer env ext disabled userIds rest
    else if userIds.contains b.1 then firstBuiltinServer env ext disabled userIds rest
    else if b.2.extensions.contains ext && isServerInstalled env b.2.command then
      some { id := b.1, command := b.2.command, extensions := b.2.extensions }
    else firstBuiltinServer env ext disabled userIds rest

/-- Embedding of findServerForExtension (config.ts lines 274 to 298),
parameterized by the built-in server table and the parsed user
configuration. -/
def findServerForExtension (env : SysEnv)
    (cfg : List (String × OpencodeJsonLspEntry))
    (builtins : List (String × BuiltinServerConfig)) (ext : String) :
    Option ResolvedServer :=
  let userServers := getUserLspServers cfg
  let disabled := getDisabledServers cfg
  match firstUserServer env ext (userServers.map (fun e => e.2)) with
  | some s => some s
  | none =>
    firstBuiltinServer env ext disabled (userServers.map (fun e => e.1)) builtins

/-! ### Formatting and filtering layer (utils.ts lines 51 to 144) -/

/-- Position as in types.ts (0-based line and character). -/
structure Position where
  line : Int
  character : Int
deriving DecidableEq

/-- Range as in types.ts. -/
structure Range where
  start : Position
  fin : Position
deriving DecidableEq

/-- Diagnostic code: string or number, as in types.ts. -/
inductive DiagnosticCode
  | str (s : String)
  | num (n : Int)
deriving DecidableEq

/-- Diagnostic as in types.ts lines 47 to 53; severity is optional. -/
structure Diagnostic where
  range : Range
  severity : Option Nat := none
  code : Option DiagnosticCode := none
  source : Option String := none
  message : String
deriving DecidableEq

/-- Severity filter names accepted by lsp_diagnostics. -/
inductive SeverityFilter
  | error
  | warning
  | information
  | hint
  | all
deriving DecidableEq

/-- The inline severityMap of filterDiagnosticsBySeverity (utils.ts lines
135 to 140); the all case never reaches the lookup (it is returned
unfiltered beforehand) and is given the out-of-range value 0. -/
def severityFilterNum : SeverityFilter → Nat
  | SeverityFilter.error => 1
  | SeverityFilter.warning => 2
  | SeverityFilter.information => 3
  | SeverityFilter.hint => 4
  | SeverityFilter.all => 0

/-- Embedding of filterDiagnosticsBySeverity (utils.ts lines 127 to 144):
absent filter or the all filter pass the input through; a named filter
keeps exactly the diagnostics whose severity strictly equals the mapped
number (an absent severity never equals a number). -/
def filterDiagnosticsBySeverity (diagnostics : List Diagnostic)
    (severityFilter : Option SeverityFilter) : List Diagnostic :=
  match severityFilter with
  | none => diagnostics
  | some SeverityFilter.all => diagnostics
  | some f =>
    diagnostics.filter (fun d => d.severity == some (severityFilterNum f))

/-- One element of hover contents: a plain string or a record with an
optional kind and a value. -/
inductive HoverItem
  | str (s : String)
  | record (kind : Option String) (value : String)
deriving DecidableEq

/-- Hover contents as in types.ts lines 55 to 61: a string, one record,
or an array of items. -/
inductive HoverContents
  | str (s : String)
  | one (kind : Option String) (value : String)
  | arr (items : List HoverItem)
deriving DecidableEq

/-- Hover result as in types.ts. -/
structure HoverResult where
  contents : HoverContents
deriving DecidableEq

/-- Text content of one hover item, mirroring the map callback of
formatHoverResult line 61. -/
def hoverItemText : HoverItem → String
  | HoverItem.str s => s
  | HoverItem.record _ v => v

/-- Embedding of formatHoverResult (utils.ts lines 51 to 71): null input
formats to the fixed sentinel; a string is returned as is; an array is
mapped to item texts, filtered through Boolean (dropping empty strings)
and joined with a blank line; a single record yields its value. -/
def formatHoverResult : Option HoverResult → String
  | none => "No hover information available"
  | some r =>
    match r.contents with
    | HoverContents.str s => s
    | HoverContents.arr items =>
      String.intercalate "\n\n"
        ((items.map hoverItemText).filter (fun s => s != ""))
    | HoverContents.one _ v => v

/-- Modelled from the spec: the array case as the claim words it, the
text contents of all items joined with a blank line (no dropping). -/
def specHoverArrayText (items : List HoverItem) : String :=
  String.intercalate "\n\n" (items.map hoverItemText)

/-- Sample diagnostic with a given optional severity, for concrete
witness instances. -/
def sampleDiag (sev : Option Nat) : Diagnostic :=
  { range := { start := { line := 0, character := 0 },
               fin := { line := 0, character := 1 } },
    severity := sev,
    message := "m" }

/-! ### Helper lemmas on the framing primitives -/

theorem seqPrefix_append (n t : List Nat) : seqPrefix n (n ++ t) = true := by
  induction n with
  | nil => rfl
  | cons a as ih => simp [seqPrefix, ih]

theorem seqPrefix_nil_right {n : List Nat} (h : seqPrefix n [] = true) : n = [] := by
  cases n with
  | nil => rfl
  | cons a as => simp [seqPrefix] at h

theorem seqPrefix_cons_head {c : Nat} {cs h : List Nat}
    (hp : seqPrefix (c :: cs) h = true) : ∃ t, h = c :: t := by
  cases h with
  | nil => simp [seqPrefix] at hp
  | cons b bs =>
    simp only [seqPrefix, Bool.and_eq_true, beq_iff_eq] at hp
    exact ⟨bs, by rw [hp.1]⟩

theorem findSequence_of_starts {h n : List Nat} (hp : seqPrefix n h = true) :
    findSequence h n = some 0 := by
  rw [findSequence.eq_def]
  simp [hp]

theorem findSequence_cons_of_not_starts {x : Nat} {t n : List Nat}
    (hp : seqPrefix n (x :: t) = false) :
    findSequence (x :: t) n = Option.map (· + 1) (findSequence t n) := by
  rw [findSequence.eq_def]
  simp [hp]

theorem findSequence_nil {c : Nat} {cs : List Nat} :
    findSequence [] (c :: cs) = none := by
  rw [findSequence.eq_def]
  simp [seqPrefix]

theorem findSequence_sound {h n : List Nat} {q : Nat}
    (hf : findSequence h n = some q) : seqPrefix n (h.drop q) = true := by
  induction h generalizing q with
  | nil =>
    cases n with
    | nil => simp [seqPrefix]
    | cons c cs => rw [findSequence_nil] at hf; exact absurd hf (by simp)
  | cons x t ih =>
    by_cases hp : seqPrefix n (x :: t) = true
    · rw [findSequence_of_starts hp] at hf
      have hq : q = 0 := by
        have := hf.symm
        simp at this
        omega
      subst hq
      simpa using hp
    · rw [findSequence_cons_of_not_starts (by simpa using hp)] at hf
      cases hft : findSequence t n with
      | none => rw [hft] at hf; simp at hf
      | some q2 =>
        rw [hft] at hf
        simp at hf
        subst hf
        simpa using ih hft

theorem findSequence_complete {h n : List Nat} (i : Nat)
    (hp : seqPrefix n (h.drop i) = true) : (findSequence h n).isSome := by
  induction h generalizing i with
  | nil =>
    have hn : n = [] := seqPrefix_nil_right (by simpa using hp)
    subst hn
    rw [findSequence_of_starts (by simp [seqPrefix])]
    rfl
  | cons x t ih =>
    by_cases hp0 : seqPrefix n (x :: t) = true
    · rw [findSequence_of_starts hp0]; rfl
    · cases i with
      | zero =>
        simp only [List.drop_zero] at hp
        exact absurd hp hp0
      | succ j =>
        have hdrop : (x :: t).drop (j + 1) = t.drop j := by simp
        rw [hdrop] at hp
        have := ih j hp
        rw [findSequence_cons_of_not_starts (by simpa using hp0)]
        cases hft : findSequence t n with
        | none => rw [hft] at this; simp at this
        | some q2 => simp [hft]

theorem findSequence_append_ge {a b cs : List Nat} {c q : Nat}
    (hc : c ∉ a) (hf : findSequence (a ++ b) (c :: cs) = some q) :
    a.length ≤ q := by
  induction a generalizing q with
  | nil => simp
  | cons x t ih =>
    have hx : (c == x) = false := by
      simp only [beq_eq_false_iff_ne, ne_eq]
      intro h
      exact hc (by simp [h])
    have hp : seqPrefix (c :: cs) (x :: (t ++ b)) = false := by
      simp [seqPrefix, hx]
    rw [List.cons_append, findSequence_cons_of_not_starts hp] at hf
    cases hft : findSequence (t ++ b) (c :: cs) with
    | none => rw [hft] at hf; simp at hf
    | some q2 =>
      rw [hft] at hf
      simp at hf
      have := ih (fun hm => hc (by simp [hm])) hft
      simp only [List.length_cons]
      omega

theorem findSequence_append_eq {a b cs : List Nat} {c : Nat}
    (hc : c ∉ a) (hp : seqPrefix (c :: cs) b = true) :
    findSequence (a ++ b) (c :: cs) = some a.length := by
  induction a with
  | nil => simpa using findSequence_of_starts hp
  | cons x t ih =>
    have hx : (c == x) = false := by
      simp only [beq_eq_false_iff_ne, ne_eq]
      intro h
      exact hc (by simp [h])
    have hnp : seqPrefix (c :: cs) (x :: (t ++ b)) = false := by
      simp [seqPrefix, hx]
    rw [List.cons_append, findSequence_cons_of_not_starts hnp,
      ih (fun hm => hc (by simp [hm]))]
    simp

theorem natDigitsAux_mem {fuel n d : Nat} (hf : n < fuel)
    (hd : d ∈ natDigitsAux fuel n) : 48 ≤ d ∧ d ≤ 57 := by
  induction fuel generalizing n with
  | zero => omega
  | succ m ih =>
    rw [natDigitsAux] at hd
    by_cases h : n < 10
    · simp only [h, if_true, List.mem_singleton] at hd
      omega
    · simp only [h, if_false, List.mem_append, List.mem_singleton] at hd
      rcases hd with hd | hd
      · exact ih (by omega) hd
      · have : n % 10 < 10 := Nat.mod_lt n (by omega)
        omega

theorem natDigits_mem {n d : Nat} (hd : d ∈ natDigits n) : 48 ≤ d ∧ d ≤ 57 :=
  natDigitsAux_mem (Nat.lt_succ_self n) hd

theorem natDigits_ne_nil (n : Nat) : natDigits n ≠ [] := by
  rw [natDigits, natDigitsAux]
  by_cases h : n < 10 <;> simp [h]

theorem clHeader_mem {n d : Nat} (hd : d ∈ clHeader n) : d ≠ 13 ∧ d ≠ 10 := by
  have hcl : ∀ x ∈ contentLengthNeedle, x ≠ 13 ∧ x ≠ 10 := by decide
  simp only [clHeader, List.mem_append, List.mem_cons] at hd
  rcases hd with hd | hd | hd
  · exact hcl d hd
  · subst hd; omega
  · have := natDigits_mem hd
    omega

theorem digitsVal_natDigitsAux {fuel n : Nat} (hf : n < fuel) :
    digitsVal (natDigitsAux fuel n) = n := by
  induction fuel generalizing n with
  | zero => omega
  | succ m ih =>
    rw [natDigitsAux]
    by_cases h : n < 10
    · simp only [h, if_true, digitsVal, List.foldl_cons, List.foldl_nil]
      omega
    · simp only [h, if_false]
      have hrec := ih (show n / 10 < m by omega)
      simp only [digitsVal, List.foldl_append, List.foldl_cons, List.foldl_nil]
      simp only [digitsVal] at hrec
      rw [hrec]
      have : n % 10 < 10 := Nat.mod_lt n (by omega)
      omega

theorem digitsVal_natDigits (n : Nat) : digitsVal (natDigits n) = n :=
  digitsVal_natDigitsAux (Nat.lt_succ_self n)

theorem takeWhile_append_of_all {p : Nat → Bool} {l : List Nat} (t : List Nat)
    (h : ∀ x ∈ l, p x = true) :
    (l ++ t).takeWhile p = l ++ t.takeWhile p := by
  induction l with
  | nil => simp
  | cons a as ih =>
    have ha : p a = true := h a (by simp)
    simp only [List.cons_append, List.takeWhile_cons, ha, if_true]
    rw [ih (fun x hx => h x (by simp [hx]))]

theorem takeWhile_head_false {p : Nat → Bool} {t : List Nat}
    (h : ∀ b, t.head? = some b → p b = false) : t.takeWhile p = [] := by
  cases t with
  | nil => rfl
  | cons a as =>
    have := h a (by rfl)
    simp [List.takeWhile_cons, this]

theorem head?_take {t : List Nat} {m : Nat} {b : Nat}
    (h : (t.take m).head? = some b) : t.head? = some b := by
  cases t with
  | nil => simp at h
  | cons a as =>
    cases m with
    | zero => simp at h
    | succ m2 => simpa using h

theorem dropWhile_head_false {p : Nat → Bool} {t : List Nat}
    (h : ∀ b, t.head? = some b → p b = false) : t.dropWhile p = t := by
  cases t with
  | nil => rfl
  | cons a as =>
    have := h a (by rfl)
    simp [List.dropWhile_cons, this]

theorem natDigits_isDigit {n d : Nat} (hd : d ∈ natDigits n) :
    isDigitByte d = true := by
  have := natDigits_mem hd
  simp only [isDigitByte, Bool.and_eq_true, decide_eq_true_eq]
  omega

theorem natDigits_not_ws {n d : Nat} (hd : d ∈ natDigits n) :
    isWsByte d = false := by
  have := natDigits_mem hd
  simp only [isWsByte, Bool.or_eq_false_iff, beq_eq_false_iff_ne, ne_eq]
  omega

theorem clHeader_starts (n : Nat) (t : List Nat) :
    seqPrefix contentLengthNeedle (clHeader n ++ t) = true := by
  have h : clHeader n ++ t
      = contentLengthNeedle ++ ((32 :: natDigits n) ++ t) := by
    simp [clHeader]
  rw [h]
  exact seqPrefix_append _ _

theorem matchCLAt_clHeader (n : Nat) (t : List Nat)
    (ht : ∀ b, t.head? = some b → isDigitByte b = false) :
    matchCLAt (clHeader n ++ t) = some n := by
  unfold matchCLAt
  have h1 : seqPrefix (contentLengthNeedle.map lowerByte)
      ((clHeader n ++ t).map lowerByte) = true := by
    have h : (clHeader n ++ t).map lowerByte
        = contentLengthNeedle.map lowerByte
          ++ ((32 :: natDigits n) ++ t).map lowerByte := by
      simp [clHeader]
    rw [h]
    exact seqPrefix_append _ _
  rw [if_pos h1]
  have h2 : (clHeader n ++ t).drop 15 = 32 :: (natDigits n ++ t) := by
    have h : clHeader n ++ t
        = contentLengthNeedle ++ (32 :: (natDigits n ++ t)) := by
      simp [clHeader]
    rw [h]
    have h15 : (15 : Nat) = contentLengthNeedle.length := by rfl
    rw [h15, List.drop_left]
  rw [h2]
  have h3 : (32 :: (natDigits n ++ t)).dropWhile isWsByte = natDigits n ++ t := by
    rw [List.dropWhile_cons]
    have hws : isWsByte 32 = true := by decide
    rw [if_pos hws]
    apply dropWhile_head_false
    intro b hb
    cases hnd : natDigits n with
    | nil => exact absurd hnd (natDigits_ne_nil n)
    | cons d ds =>
      rw [hnd] at hb
      simp only [List.cons_append, List.head?_cons, Option.some_inj] at hb
      subst hb
      exact natDigits_not_ws (by rw [hnd]; simp)
  rw [h3]
  have h4 : (natDigits n ++ t).takeWhile isDigitByte = natDigits n := by
    rw [takeWhile_append_of_all t (fun x hx => natDigits_isDigit hx),
      takeWhile_head_false ht, List.append_nil]
  simp only [h4]
  have h5 : (natDigits n).isEmpty = false := by
    cases hnd : natDigits n with
    | nil => exact absurd hnd (natDigits_ne_nil n)
    | cons d ds => rfl
  simp only [h5]
  simp [digitsVal_natDigits]

theorem regexContentLength_of_matchCLAt {l : List Nat} {n : Nat}
    (hne : l ≠ []) (h : matchCLAt l = some n) : regexContentLength l = some n := by
  cases l with
  | nil => exact absurd rfl hne
  | cons x t =>
    rw [regexContentLength.eq_def]
    simp [h]

theorem regexContentLength_clHeader (n : Nat) (t : List Nat)
    (ht : ∀ b, t.head? = some b → isDigitByte b = false) :
    regexContentLength (clHeader n ++ t) = some n := by
  apply regexContentLength_of_matchCLAt
  · simp [clHeader, contentLengthNeedle]
  · exact matchCLAt_clHeader n t ht

theorem length_append3 (a s p : List Nat) :
    ((a ++ s) ++ p).length = a.length + s.length + p.length := by
  simp [List.length_append]
  omega

theorem drop_append2 (a s x : List Nat) :
    (a ++ (s ++ x)).drop (a.length + s.length) = x := by
  have h : a ++ (s ++ x) = (a ++ s) ++ x := by simp
  have hl : a.length + s.length = (a ++ s).length := by simp
  rw [h, hl, List.drop_left]

theorem drop_append3 (a s p x : List Nat) :
    (a ++ (s ++ (p ++ x))).drop (a.length + s.length + p.length) = x := by
  have h : a ++ (s ++ (p ++ x)) = ((a ++ s) ++ p) ++ x := by simp
  have hl : a.length + s.length + p.length = ((a ++ s) ++ p).length := by
    simp
    omega
  rw [h, hl, List.drop_left]

/-- One successful iteration of the processBuffer while loop consumes
exactly one complete leading frame, provided that an LFLF-framed head is
not preceded in terminator search by a stray CRLFCRLF occurrence. -/
theorem extractLoop_frame_step (fuel : Nat) (c : Bool) (p rest : List Nat)
    (hno : c = false →
      findSequence (mkFrame false p ++ rest) crlfcrlfBytes = none) :
    extractLoop (fuel + 1) (mkFrame c p ++ rest) =
      (p :: (extractLoop fuel rest).1, (extractLoop fuel rest).2) := by
  have hbuf : mkFrame c p ++ rest
      = clHeader p.length ++ (sepBytes c ++ (p ++ rest)) := by
    simp [mkFrame]
  have hfind0 : findSequence (clHeader p.length ++ (sepBytes c ++ (p ++ rest)))
      contentLengthNeedle = some 0 :=
    findSequence_of_starts (clHeader_starts _ _)
  have hregex : regexContentLength (clHeader p.length) = some p.length := by
    have := regexContentLength_clHeader p.length []
      (fun b hb => by simp at hb)
    simpa using this
  have htake : (clHeader p.length ++ (sepBytes c ++ (p ++ rest))).take
      (clHeader p.length).length = clHeader p.length := List.take_left _ _
  cases c with
  | true =>
    have hterm : findSequence (clHeader p.length ++ (sepBytes true ++ (p ++ rest)))
        crlfcrlfBytes = some (clHeader p.length).length := by
      exact findSequence_append_eq (fun hm => (clHeader_mem hm).1 rfl)
        (seqPrefix_append crlfcrlfBytes (p ++ rest))
    have hlen : ¬ ((clHeader p.length ++ (sepBytes true ++ (p ++ rest))).length
        < (clHeader p.length).length + 4 + p.length) := by
      simp only [List.length_append, sepBytes, crlfcrlfBytes]
      simp
      omega
    have hdrop1 : (clHeader p.length ++ (sepBytes true ++ (p ++ rest))).drop
        ((clHeader p.length).length + 4) = p ++ rest := by
      have h4 : (4 : Nat) = (sepBytes true).length := by rfl
      rw [h4]
      exact drop_append2 _ _ _
    have hdrop2 : (clHeader p.length ++ (sepBytes true ++ (p ++ rest))).drop
        ((clHeader p.length).length + 4 + p.length) = rest := by
      have h4 : (clHeader p.length).length + 4 + p.length
          = (clHeader p.length).length + (sepBytes true).length + p.length := by rfl
      rw [h4]
      exact drop_append3 _ _ _ _
    rw [hbuf]
    simp only [extractLoop, hfind0, List.drop_zero, hterm, htake, hregex,
      hlen, if_false, hdrop1, hdrop2, List.take_left]
  | false =>
    have hterm : findSequence (clHeader p.length ++ (sepBytes false ++ (p ++ rest)))
        crlfcrlfBytes = none := by
      have := hno rfl
      rw [hbuf] at this
      exact this
    have hlf : findSequence (clHeader p.length ++ (sepBytes false ++ (p ++ rest)))
        lflfBytes = some (clHeader p.length).length := by
      exact findSequence_append_eq (fun hm => (clHeader_mem hm).2 rfl)
        (seqPrefix_append lflfBytes (p ++ rest))
    have hlen : ¬ ((clHeader p.length ++ (sepBytes false ++ (p ++ rest))).length
        < (clHeader p.length).length + 2 + p.length) := by
      simp only [List.length_append, sepBytes, lflfBytes]
      simp
      omega
    have hdrop1 : (clHeader p.length ++ (sepBytes false ++ (p ++ rest))).drop
        ((clHeader p.length).length + 2) = p ++ rest := by
      have h2 : (2 : Nat) = (sepBytes false).length := by rfl
      rw [h2]
      exact drop_append2 _ _ _
    have hdrop2 : (clHeader p.length ++ (sepBytes false ++ (p ++ rest))).drop
        ((clHeader p.length).length + 2 + p.length) = rest := by
      have h2 : (clHeader p.length).length + 2 + p.length
          = (clHeader p.length).length + (sepBytes false).length + p.length := by rfl
      rw [h2]
      exact drop_append3 _ _ _ _
    rw [hbuf]
    simp only [extractLoop, hfind0, List.drop_zero, hterm, hlf, htake, hregex,
      hlen, if_false, hdrop1, hdrop2, List.take_left]

theorem mkFrame_length_pos (c : Bool) (p : List Nat) : 0 < (mkFrame c p).length := by
  simp [mkFrame, clHeader, contentLengthNeedle]

theorem framesBytes_length_ge (frames : List (Bool × List Nat)) :
    frames.length ≤ (framesBytes frames).length := by
  induction frames with
  | nil => simp [framesBytes]
  | cons f fs ih =>
    have := mkFrame_length_pos f.1 f.2
    simp only [framesBytes, List.length_append, List.length_cons]
    omega

theorem extractLoop_nil (fuel : Nat) : extractLoop fuel [] = ([], []) := by
  cases fuel with
  | zero => rfl
  | succ m =>
    have h0 : findSequence [] contentLengthNeedle = none := findSequence_nil
    simp only [extractLoop, h0]

theorem extractLoop_frames (frames : List (Bool × List Nat)) (fuel : Nat)
    (hfuel : frames.length ≤ fuel) (hsafe : lflfSafe frames = true) :
    extractLoop fuel (framesBytes frames)
      = (frames.map (fun f => f.2), []) := by
  induction frames generalizing fuel with
  | nil => simpa [framesBytes] using extractLoop_nil fuel
  | cons f fs ih =>
    obtain ⟨c, p⟩ := f
    simp only [lflfSafe, Bool.and_eq_true, Bool.or_eq_true] at hsafe
    obtain ⟨hhead, htail⟩ := hsafe
    obtain ⟨m, rfl⟩ : ∃ m, fuel = m + 1 := by
      cases fuel with
      | zero => simp at hfuel
      | succ m => exact ⟨m, rfl⟩
    have hstep := extractLoop_frame_step m c p (framesBytes fs)
      (by
        intro hc
        subst hc
        rcases hhead with hh | hh
        · simp at hh
        · rw [Option.isNone_iff_eq_none] at hh
          simpa [framesBytes] using hh)
    calc extractLoop (m + 1) (framesBytes ((c, p) :: fs))
        = extractLoop (m + 1) (mkFrame c p ++ framesBytes fs) := by
          simp [framesBytes]
      _ = (p :: (extractLoop m (framesBytes fs)).1,
            (extractLoop m (framesBytes fs)).2) := hstep
      _ = (((c, p) :: fs).map (fun f => f.2), []) := by
          rw [ih m (by simp only [List.length_cons] at hfuel; omega) htail]
          simp

theorem sepBytes_head_not_digit (c : Bool) (p : List Nat) (b : Nat)
    (hb : (sepBytes c ++ p).head? = some b) : isDigitByte b = false := by
  cases c with
  | true =>
    simp only [sepBytes, crlfcrlfBytes, List.cons_append, List.head?_cons,
      Option.some_inj] at hb
    subst hb
    decide
  | false =>
    simp only [sepBytes, lflfBytes, List.cons_append, List.head?_cons,
      Option.some_inj] at hb
    subst hb
    decide

theorem regexTake_partial (c : Bool) (L q : Nat) (p : List Nat)
    (hq : (clHeader L).length ≤ q) :
    regexContentLength ((clHeader L ++ (sepBytes c ++ p)).take q) = some L := by
  have htake : (clHeader L ++ (sepBytes c ++ p)).take q
      = clHeader L ++ (sepBytes c ++ p).take (q - (clHeader L).length) := by
    rw [List.take_append_eq_append_take, List.take_of_length_le hq]
  rw [htake]
  apply regexContentLength_clHeader
  intro b hb
  exact sepBytes_head_not_digit c p b (head?_take hb)

/-- Buffer consisting of one header declaring L bytes, a terminator, and
only the (insufficient) payload bytes available so far. -/
theorem extractLoop_partial (fuel : Nat) (c : Bool) (L : Nat) (p : List Nat)
    (hlt : p.length < L) :
    extractLoop (fuel + 1) (clHeader L ++ (sepBytes c ++ p))
      = ([], clHeader L ++ (sepBytes c ++ p)) := by
  have hfind0 : findSequence (clHeader L ++ (sepBytes c ++ p))
      contentLengthNeedle = some 0 :=
    findSequence_of_starts (clHeader_starts _ _)
  cases hcr : findSequence (clHeader L ++ (sepBytes c ++ p)) crlfcrlfBytes with
  | some q =>
    have hq : (clHeader L).length ≤ q :=
      findSequence_append_ge (fun hm => (clHeader_mem hm).1 rfl) hcr
    have hreg := regexTake_partial c L q p hq
    have hguard : (clHeader L ++ (sepBytes c ++ p)).length < q + 4 + L := by
      have hs : (sepBytes c).length ≤ 4 := by
        cases c <;> simp [sepBytes, crlfcrlfBytes, lflfBytes]
      simp only [List.length_append]
      omega
    simp only [extractLoop, hfind0, List.drop_zero, hcr, hreg]
    rw [if_pos hguard]
  | none =>
    cases hlf : findSequence (clHeader L ++ (sepBytes c ++ p)) lflfBytes with
    | some q =>
      cases c with
      | true =>
        exfalso
        have hdrop : (clHeader L ++ (sepBytes true ++ p)).drop
            (clHeader L).length = sepBytes true ++ p := List.drop_left _ _
        have hsome : (findSequence (clHeader L ++ (sepBytes true ++ p))
            crlfcrlfBytes).isSome :=
          findSequence_complete (clHeader L).length
            (by rw [hdrop]; exact seqPrefix_append crlfcrlfBytes p)
        rw [hcr] at hsome
        simp at hsome
      | false =>
        have hq : (clHeader L).length ≤ q :=
          findSequence_append_ge (fun hm => (clHeader_mem hm).2 rfl) hlf
        have hreg := regexTake_partial false L q p hq
        have hguard : (clHeader L ++ (sepBytes false ++ p)).length < q + 2 + L := by
          simp only [List.length_append, sepBytes, lflfBytes]
          simp only [List.length_cons, List.length_nil]
          omega
        simp only [extractLoop, hfind0, List.drop_zero, hcr, hlf, hreg]
        rw [if_pos hguard]
    | none =>
      simp only [extractLoop, hfind0, List.drop_zero, hcr, hlf]

/-! ### Claim theorems on the framing algorithm -/

/-- C1 counterexample: a buffer of two complete frames, the first
terminated by LFLF and the second by CRLFCRLF, from which one call of the
buffer-processing step does not extract the two payloads (it extracts a
single garbled frame instead, because the CRLFCRLF search scans the whole
buffer and jumps past the first frame's LFLF terminator). -/
theorem processBuffer_mixed_terminators_counterexample :
    processBuffer (framesBytes [(false, [123, 125]), (true, [91, 93])])
      ≠ ([[123, 125], [91, 93]], []) := by
  decide

/-- C1 (amended): for every byte buffer containing N complete frames
concatenated, each frame a Content-Length header terminated by CRLFCRLF
or LFLF followed by exactly the declared number of payload bytes, one
call of the buffer-processing step extracts exactly the N JSON payloads
in frame order and leaves the buffer empty, provided that whenever a
frame uses the LFLF convention the CRLFCRLF sequence occurs nowhere in
the buffer from that frame on (in particular: all frames CRLFCRLF, or
all frames LFLF with payloads free of CRLFCRLF; an arbitrary mix fails,
see the counterexample). -/
theorem processBuffer_extracts_all_frames (frames : List (Bool × List Nat))
    (hsafe : lflfSafe frames = true) :
    processBuffer (framesBytes frames) = (frames.map (fun f => f.2), []) := by
  unfold processBuffer
  exact extractLoop_frames frames ((framesBytes frames).length + 1)
    (Nat.le_succ_of_le (framesBytes_length_ge frames)) hsafe

/-- Witness for the amended frame-extraction theorem: a concrete
two-frame buffer mixing the conventions in the reliable order (CRLFCRLF
frame first, LFLF frame second). -/
theorem processBuffer_extracts_all_frames_witness :
    lflfSafe [(true, [123, 125]), (false, [91, 93])] = true ∧
    processBuffer (framesBytes [(true, [123, 125]), (false, [91, 93])])
      = ([[123, 125], [91, 93]], []) :=
  ⟨by decide, by
    have h := processBuffer_extracts_all_frames
      [(true, [123, 125]), (false, [91, 93])] (by decide)
    simpa using h⟩

/-- C5: for every buffer holding one frame whose declared Content-Length
L exceeds the payload bytes currently available after the header
terminator (either convention), the buffer-processing step extracts
nothing and leaves every byte in place, so no partial or garbage payload
is produced. -/
theorem processBuffer_partial_frame (c : Bool) (L : Nat) (p : List Nat)
    (hlt : p.length < L) :
    processBuffer (clHeader L ++ (sepBytes c ++ p))
      = ([], clHeader L ++ (sepBytes c ++ p)) := by
  unfold processBuffer
  exact extractLoop_partial _ c L p hlt

/-- Witness for the partial-frame theorem: a CRLFCRLF frame declaring
five bytes with one byte available, and an LFLF frame declaring five
bytes with two bytes available. -/
theorem processBuffer_partial_frame_witness :
    (1 : Nat) < 5 ∧
    processBuffer (clHeader 5 ++ (sepBytes true ++ [97]))
      = ([], clHeader 5 ++ (sepBytes true ++ [97])) ∧
    processBuffer (clHeader 5 ++ (sepBytes false ++ [97, 98]))
      = ([], clHeader 5 ++ (sepBytes false ++ [97, 98])) :=
  ⟨by decide, processBuffer_partial_frame true 5 [97] (by decide),
    processBuffer_partial_frame false 5 [97, 98] (by decide)⟩

/-! ### Claim theorems on the session orchestrator -/

/-- C2 (code evaluated at the failing input): when server resolution and
start succeed but initialization throws, withLspClient performs start and
initialize but never stop, so the subprocess is left running while the
error propagates; this is the one exit path on which the claimed
guarantee fails (the source awaits initialize before entering the try
block whose finally clause stops the client). On the operation paths the
finally clause does stop the client. -/
theorem withLspClient_init_failure_leaks :
    withLspClient { serverFound := true, startOk := true, initOk := false, opOk := true }
      = ([LspEvent.start, LspEvent.init], false) ∧
    LspEvent.stop ∉
      (withLspClient { serverFound := true, startOk := true, initOk := false, opOk := true }).1 ∧
    LspEvent.stop ∈
      (withLspClient { serverFound := true, startOk := true, initOk := true, opOk := false }).1 ∧
    LspEvent.stop ∈
      (withLspClient { serverFound := true, startOk := true, initOk := true, opOk := true }).1 := by
  decide

/-! ### Claim theorems on server-initiated requests -/

/-- C4 counterexample: a workspace/configuration request asking for two
configuration scopes is answered with a one-element array holding a
single empty object, not with one empty object per requested scope as
the claim states (the source ignores the request params). -/
theorem handleServerRequest_scopes_counterexample :
    handleServerRequest "workspace/configuration" = some (Json.arr [Json.obj []]) ∧
    specConfigurationAnswer (Json.obj [("items",
        Json.arr [Json.obj [("section", Json.str "a")],
          Json.obj [("section", Json.str "b")]])])
      = Json.arr [Json.obj [], Json.obj []] ∧
    Json.arr [Json.obj []] ≠ Json.arr [Json.obj [], Json.obj []] := by
  refine ⟨rfl, rfl, fun h => ?_⟩
  injection h with h2
  simp at h2

/-- C4 (amended): every reply to a server-initiated request is keyed to
the server's incoming id and leaves the pending table untouched (no new
id is minted); workspace/configuration is always answered with a
one-element array holding a single empty object regardless of the number
of requested scopes, client/registerCapability and
window/workDoneProgress/create are answered with null, and a message
whose method is unrecognized receives no response at all. -/
theorem handleServerRequest_replies {α : Type} (pending : List (Nat × α))
    (mid : JsonId) (meth : String) :
    (dispatchMessage pending { id := some mid, method := some meth }).1 = pending ∧
    (∀ i r, ClientEffect.wroteResponse i r ∈
        (dispatchMessage pending { id := some mid, method := some meth }).2 →
      i = mid) ∧
    handleServerRequest "workspace/configuration" = some (Json.arr [Json.obj []]) ∧
    handleServerRequest "client/registerCapability" = some Json.null ∧
    handleServerRequest "window/workDoneProgress/create" = some Json.null ∧
    (handleServerRequest meth = none →
      (dispatchMessage pending { id := some mid, method := some meth }).2 = []) := by
  refine ⟨rfl, ?_, rfl, rfl, rfl, ?_⟩
  · intro i r hmem
    simp only [dispatchMessage] at hmem
    cases hh : handleServerRequest meth with
    | none => rw [hh] at hmem; simp at hmem
    | some ans =>
      rw [hh] at hmem
      simp only [List.mem_singleton] at hmem
      cases hmem
      rfl
  · intro hnone
    simp only [dispatchMessage, hnone]

/-- Witness for the server-request reply theorem at concrete inputs: a
recognized method is answered keyed to the incoming id with the pending
table untouched, and an unrecognized method produces no effect. -/
theorem handleServerRequest_replies_witness :
    (dispatchMessage ([(1, 5)] : List (Nat × Nat))
      { id := some (JsonId.num 7), method := some "workspace/configuration" }).1
      = [(1, 5)] ∧
    (JsonId.num 7) = (JsonId.num 7) ∧
    (dispatchMessage ([(1, 5)] : List (Nat × Nat))
      { id := some (JsonId.num 9), method := some "unknown/method" }).2 = [] := by
  refine ⟨(handleServerRequest_replies [(1, 5)] (JsonId.num 7)
      "workspace/configuration").1, ?_, ?_⟩
  · exact (handleServerRequest_replies [(1, 5)] (JsonId.num 7)
      "workspace/configuration").2.1 (JsonId.num 7) (Json.arr [Json.obj []])
      (by simp [dispatchMessage, handleServerRequest])
  · exact (handleServerRequest_replies [(1, 5)] (JsonId.num 9)
      "unknown/method").2.2.2.2.2 rfl

/-! ### Claim theorems on severity filtering -/

/-- C8: severity filtering passes the input through unchanged for an
absent filter and for the all filter; a named severity filter returns
exactly the order-preserving sublist of diagnostics whose numeric
severity equals the number the name maps to (error to 1), and every
filter result is a sublist of the input. -/
theorem filterDiagnosticsBySeverity_spec (ds : List Diagnostic) :
    filterDiagnosticsBySeverity ds none = ds ∧
    filterDiagnosticsBySeverity ds (some SeverityFilter.all) = ds ∧
    (∀ f : SeverityFilter, f ≠ SeverityFilter.all →
      filterDiagnosticsBySeverity ds (some f)
        = ds.filter (fun d => d.severity == some (severityFilterNum f))) ∧
    (∀ fopt, (filterDiagnosticsBySeverity ds fopt).Sublist ds) ∧
    filterDiagnosticsBySeverity ds (some SeverityFilter.error)
      = ds.filter (fun d => d.severity == some 1) := by
  refine ⟨rfl, rfl, ?_, ?_, rfl⟩
  · intro f hf
    cases f with
    | all => exact absurd rfl hf
    | error => rfl
    | warning => rfl
    | information => rfl
    | hint => rfl
  · intro fopt
    match fopt with
    | none => exact List.Sublist.refl ds
    | some SeverityFilter.all => exact List.Sublist.refl ds
    | some SeverityFilter.error => exact List.filter_sublist ds
    | some SeverityFilter.warning => exact List.filter_sublist ds
    | some SeverityFilter.information => exact List.filter_sublist ds
    | some SeverityFilter.hint => exact List.filter_sublist ds

/-- Witness for the severity filtering theorem at a concrete list: the
error filter keeps exactly the severity-1 entry. -/
theorem filterDiagnosticsBySeverity_spec_witness :
    SeverityFilter.error ≠ SeverityFilter.all ∧
    filterDiagnosticsBySeverity
        [sampleDiag (some 1), sampleDiag (some 2), sampleDiag none]
        (some SeverityFilter.error)
      = [sampleDiag (some 1)] := by
  refine ⟨by decide, ?_⟩
  rw [(filterDiagnosticsBySeverity_spec
    [sampleDiag (some 1), sampleDiag (some 2), sampleDiag none]).2.2.1
    SeverityFilter.error (by decide)]
  decide

/-- C10: a named severity filter (error, warning, information, hint)
removes every diagnostic whose optional severity field is absent; only
the absent filter and the all filter preserve severity-less diagnostics
(they return the input unchanged). -/
theorem filterDiagnosticsBySeverity_drops_unset (ds : List Diagnostic)
    (f : SeverityFilter) (hf : f ≠ SeverityFilter.all) :
    (∀ d ∈ filterDiagnosticsBySeverity ds (some f), d.severity ≠ none) ∧
    filterDiagnosticsBySeverity ds none = ds ∧
    filterDiagnosticsBySeverity ds (some SeverityFilter.all) = ds := by
  refine ⟨?_, rfl, rfl⟩
  intro d hd
  have hfilter : filterDiagnosticsBySeverity ds (some f)
      = ds.filter (fun d => d.severity == some (severityFilterNum f)) := by
    cases f with
    | all => exact absurd rfl hf
    | error => rfl
    | warning => rfl
    | information => rfl
    | hint => rfl
  rw [hfilter] at hd
  have := (List.mem_filter.mp hd).2
  simp only [beq_iff_eq] at this
  rw [this]
  simp

/-- Witness for the severity-absence theorem: the error filter removes
the severity-less diagnostic, and the entry it keeps has a severity. -/
theorem filterDiagnosticsBySeverity_drops_unset_witness :
    SeverityFilter.error ≠ SeverityFilter.all ∧
    (sampleDiag (some 1)).severity ≠ none ∧
    filterDiagnosticsBySeverity [sampleDiag none, sampleDiag (some 1)] none
      = [sampleDiag none, sampleDiag (some 1)] := by
  refine ⟨by decide, ?_, ?_⟩
  · exact (filterDiagnosticsBySeverity_drops_unset
      [sampleDiag none, sampleDiag (some 1)] SeverityFilter.error (by decide)).1
      (sampleDiag (some 1)) (by decide)
  · exact (filterDiagnosticsBySeverity_drops_unset
      [sampleDiag none, sampleDiag (some 1)] SeverityFilter.error (by decide)).2.1

/-! ### Claim theorems on hover formatting -/

/-- C9 counterexample: formatting the hover array consisting of the
string "a" and a record whose value is the empty string drops the empty
text (the Boolean filter) instead of joining it, so the result differs
from all text contents joined with a blank line as the claim states. -/
theorem formatHoverResult_empty_item_counterexample :
    formatHoverResult (some { contents := (HoverContents.arr
      [HoverItem.str "a", HoverItem.record none ""]) }) = "a" ∧
    specHoverArrayText [HoverItem.str "a", HoverItem.record none ""] = "a\n\n" ∧
    ("a" : String) ≠ "a\n\n" := by
  refine ⟨rfl, rfl, by decide⟩

/-- C9 (amended): hover formatting of a null result yields the fixed
sentinel text; of a plain string that string; of a single record its
value; and of a sequence the non-empty text contents of its items, in
order, joined by a blank line (empty texts are dropped by the Boolean
filter), so that the sequence of "a" and a record valued "b" formats to
the two texts separated by a blank line. -/
theorem formatHoverResult_spec (s v : String) (k : Option String)
    (items : List HoverItem) :
    formatHoverResult none = "No hover information available" ∧
    formatHoverResult (some { contents := HoverContents.str s }) = s ∧
    formatHoverResult (some { contents := HoverContents.one k v }) = v ∧
    formatHoverResult (some { contents := HoverContents.arr items })
      = String.intercalate "\n\n"
          ((items.map hoverItemText).filter (fun t => t != "")) ∧
    formatHoverResult (some { contents := (HoverContents.arr
      [HoverItem.str "a", HoverItem.record none "b"]) }) = "a\n\nb" :=
  ⟨rfl, rfl, rfl, rfl, rfl⟩

/-! ### Claim theorems on the pending table -/

theorem mapHas_delete {α : Type} (m : List (Nat × α)) (k : Nat) :
    mapHas (mapDelete m k) k = false := by
  rw [mapHas, List.any_eq_false]
  intro e he
  rw [mapDelete, List.mem_filter] at he
  have h2 := he.2
  simp only [bne_iff_ne, ne_eq] at h2
  simp only [beq_iff_eq]
  exact h2

theorem mapGet_cons_ne {α : Type} (e : Nat × α) (t : List (Nat × α)) (j : Nat)
    (h : ¬ e.1 = j) : mapGet (e :: t) j = mapGet t j := by
  rw [mapGet, mapGet, List.find?_cons_of_neg _ (by simpa using h)]

theorem mapGet_delete_ne {α : Type} (m : List (Nat × α)) (j k : Nat)
    (hjk : j ≠ k) : mapGet (mapDelete m k) j = mapGet m j := by
  induction m with
  | nil => rfl
  | cons e t ih =>
    by_cases hek : e.1 = k
    · have h1 : (e.1 != k) = false := by simp [hek]
      have hej : ¬ e.1 = j := by omega
      rw [mapDelete, List.filter_cons, h1]
      simp only [Bool.false_eq_true, if_false]
      rw [show List.filter (fun e => e.1 != k) t = mapDelete t k from rfl, ih,
        mapGet_cons_ne e t j hej]
    · have h1 : (e.1 != k) = true := by simp [hek]
      rw [mapDelete, List.filter_cons, h1]
      simp only [if_true]
      by_cases hej : e.1 = j
      · rw [mapGet, mapGet, List.find?_cons_of_pos _ (by simpa using hej),
          List.find?_cons_of_pos _ (by simpa using hej)]
      · rw [mapGet_cons_ne e _ j hej, mapGet_cons_ne e t j hej,
          show List.filter (fun e => e.1 != k) t = mapDelete t k from rfl]
        exact ih

theorem mapGet_isSome_of_has {α : Type} {m : List (Nat × α)} {k : Nat}
    (h : mapHas m k = true) : (mapGet m k).isSome := by
  rw [mapHas, List.any_eq_true] at h
  obtain ⟨e, he, hek⟩ := h
  have hf : (List.find? (fun e => e.1 == k) m).isSome := by
    rw [List.find?_isSome]
    exact ⟨e, he, hek⟩
  rw [mapGet]
  cases hx : List.find? (fun e => e.1 == k) m with
  | none => rw [hx] at hf; simp at hf
  | some x => simp [hx]

/-- Reduction of dispatch on a parsed response message. -/
theorem dispatch_respMsg {α : Type} (pending : List (Nat × α)) (k : Nat)
    (isErr : Bool) :
    dispatchMessage pending (respMsg k isErr)
      = (if mapHas pending k then
          match mapGet pending k with
          | some h => (mapDelete pending k,
              [if isErr then ClientEffect.rejected h else ClientEffect.resolved h])
          | none => (mapDelete pending k, [])
        else (pending, [])) := rfl

/-- C3: a pending entry k is removed exactly once, by whichever of the
matching response or the timeout fires first, and the other event is a
no-op (a response arriving after the timeout removed entry k is dropped,
and a timeout firing after a response for k does nothing); a response
whose id matches no pending entry is dropped without any effect, and
processing a response for k never changes the entry of any other id. -/
theorem pending_removed_exactly_once {α : Type} (pending : List (Nat × α))
    (k : Nat) (isErr : Bool) :
    handleTimeout (dispatchMessage pending (respMsg k isErr)).1 k
      = ((dispatchMessage pending (respMsg k isErr)).1, false) ∧
    dispatchMessage (handleTimeout pending k).1 (respMsg k isErr)
      = ((handleTimeout pending k).1, []) ∧
    (mapHas pending k = true →
      (dispatchMessage pending (respMsg k isErr)).1 = mapDelete pending k ∧
      mapHas (dispatchMessage pending (respMsg k isErr)).1 k = false ∧
      (dispatchMessage pending (respMsg k isErr)).2.length = 1) ∧
    (mapHas pending k = false →
      dispatchMessage pending (respMsg k isErr) = (pending, [])) ∧
    (∀ j, j ≠ k →
      mapGet (dispatchMessage pending (respMsg k isErr)).1 j = mapGet pending j) := by
  have hfst : (dispatchMessage pending (respMsg k isErr)).1
      = if mapHas pending k then mapDelete pending k else pending := by
    rw [dispatch_respMsg]
    by_cases hh : mapHas pending k
    · rw [if_pos hh, if_pos hh]
      cases hg : mapGet pending k with
      | none => rfl
      | some h => rfl
    · rw [if_neg hh, if_neg hh]
  refine ⟨?_, ?_, ?_, ?_, ?_⟩
  · rw [hfst]
    by_cases hh : mapHas pending k = true
    · rw [if_pos hh, handleTimeout, if_neg (by simp [mapHas_delete])]
    · rw [if_neg hh, handleTimeout, if_neg hh]
  · by_cases hh : mapHas pending k = true
    · have hT : handleTimeout pending k = (mapDelete pending k, true) := by
        rw [handleTimeout, if_pos hh]
      rw [hT]
      show dispatchMessage (mapDelete pending k) (respMsg k isErr)
        = (mapDelete pending k, [])
      rw [dispatch_respMsg, if_neg (by simp [mapHas_delete])]
    · have hT : handleTimeout pending k = (pending, false) := by
        rw [handleTimeout, if_neg hh]
      rw [hT]
      show dispatchMessage pending (respMsg k isErr) = (pending, [])
      rw [dispatch_respMsg, if_neg hh]
  · intro hh
    obtain ⟨h, hget⟩ := Option.isSome_iff_exists.mp (mapGet_isSome_of_has hh)
    refine ⟨by rw [hfst, if_pos hh], by rw [hfst, if_pos hh, mapHas_delete], ?_⟩
    rw [dispatch_respMsg, if_pos hh, hget]
    rfl
  · intro hh
    rw [dispatch_respMsg, if_neg (by simp [hh])]
  · intro j hjk
    rw [hfst]
    by_cases hh : mapHas pending k = true
    · rw [if_pos hh]
      exact mapGet_delete_ne pending j k hjk
    · rw [if_neg hh]

/-- Witness for the pending-table theorem: a concrete table where id 1
is consumed by its response (and the later timeout is a no-op), a
response for the absent id 2 is dropped, and the entry of id 3 survives
the response for id 1. -/
theorem pending_removed_exactly_once_witness :
    mapGet (dispatchMessage [(1, 10), (3, 30)] (respMsg 1 false)).1 3
      = mapGet [(1, 10), (3, 30)] 3 ∧
    (dispatchMessage [(1, 10), (3, 30)] (respMsg 1 false)).1
      = mapDelete [(1, 10), (3, 30)] 1 ∧
    dispatchMessage [(1, 10), (3, 30)] (respMsg 2 false)
      = ([(1, 10), (3, 30)], []) ∧
    handleTimeout (dispatchMessage [(1, 10), (3, 30)] (respMsg 1 false)).1 1
      = ((dispatchMessage [(1, 10), (3, 30)] (respMsg 1 false)).1, false) := by
  refine ⟨?_, ?_, ?_, ?_⟩
  · exact (pending_removed_exactly_once [(1, 10), (3, 30)] 1 false).2.2.2.2
      3 (by decide)
  · exact ((pending_removed_exactly_once [(1, 10), (3, 30)] 1 false).2.2.1
      (by decide)).1
  · exact (pending_removed_exactly_once [(1, 10), (3, 30)] 2 false).2.2.2.1
      (by decide)
  · exact (pending_removed_exactly_once [(1, 10), (3, 30)] 1 false).1

/-! ### Claim theorems on the workspace resolver -/

theorem walkUp_eq_find_aux (fs : FileSystem) :
    ∀ n (d : List String), d.length ≤ n →
      walkUp fs d = (ancestorChain d).find? (fun x => hasMarker fs x) := by
  intro n
  induction n with
  | zero =>
    intro d hd
    have hnil : d = [] := List.length_eq_zero.mp (by omega)
    subst hnil
    rw [walkUp, ancestorChain]
    rfl
  | succ m ih =>
    intro d hd
    match d with
    | [] => rw [walkUp, ancestorChain]; rfl
    | x :: rest =>
      rw [walkUp, ancestorChain]
      by_cases hm : hasMarker fs (x :: rest) = true
      · rw [if_pos hm, List.find?_cons_of_pos _ hm]
      · rw [if_neg hm, List.find?_cons_of_neg _ hm]
        exact ih (List.dropLast (x :: rest))
          (by
            rw [List.length_dropLast]
            simp only [List.length_cons] at hd ⊢
            omega)

theorem walkUp_eq_find (fs : FileSystem) (d : List String) :
    walkUp fs d = (ancestorChain d).find? (fun x => hasMarker fs x) :=
  walkUp_eq_find_aux fs d.length d (Nat.le_refl _)

/-- C6: findWorkspaceRoot always terminates with some directory and never
throws (the result is always ok): it returns the first (nearest)
directory of the walked chain, namely the start directory (the resolved
path itself when it is an existing directory, its parent otherwise) and
its successive ancestors, the filesystem root excluded, that contains
one of the fixed project markers; when the walk reaches the root with no
marker found, it returns the parent directory of the original resolved
path. -/
theorem findWorkspaceRoot_spec (fs : FileSystem) (filePath : List String) :
    findWorkspaceRoot fs filePath
      = Except.ok (((ancestorChain (startDir fs filePath)).find?
          (fun x => hasMarker fs x)).getD (dirname filePath)) := by
  have hstart : findWorkspaceRoot fs filePath
      = (match walkUp fs (startDir fs filePath) with
         | some d => Except.ok d
         | none => Except.ok (dirname filePath)) := by
    rw [findWorkspaceRoot, startDir, statIsDirectory]
    by_cases he : fs.pathExists filePath = true
    · by_cases hd : fs.isDirectory filePath = true
      · simp [he, hd]
      · simp [he, hd]
    · simp [he]
  rw [hstart, walkUp_eq_find]
  cases hf : (ancestorChain (startDir fs filePath)).find? (fun x => hasMarker fs x) with
  | none => rfl
  | some d => rfl

/-! ### Claim theorems on server resolution -/

theorem firstUserServer_eq_find (env : SysEnv) (ext : String)
    (l : List ResolvedServer) :
    firstUserServer env ext l
      = l.find? (fun s => s.extensions.contains ext
          && isServerInstalled env s.command) := by
  induction l with
  | nil => rfl
  | cons s rest ih =>
    rw [firstUserServer]
    by_cases hp : (s.extensions.contains ext && isServerInstalled env s.command) = true
    · rw [if_pos hp]
      simp only [List.find?_cons, hp]
    · have hp2 : (s.extensions.contains ext && isServerInstalled env s.command)
          = false := by simpa using hp
      rw [if_neg hp, ih]
      simp only [List.find?_cons, hp2]

theorem firstBuiltinServer_eq_find (env : SysEnv) (ext : String)
    (disabled userIds : List String)
    (l : List (String × BuiltinServerConfig)) :
    firstBuiltinServer env ext disabled userIds l
      = (l.find? (fun b => !(disabled.contains b.1) && !(userIds.contains b.1)
          && b.2.extensions.contains ext
          && isServerInstalled env b.2.command)).map
        (fun b => { id := b.1, command := b.2.command,
                    extensions := b.2.extensions }) := by
  induction l with
  | nil => rfl
  | cons b rest ih =>
    rw [firstBuiltinServer]
    by_cases h1 : disabled.contains b.1 = true
    · rw [if_pos h1, ih]
      have hp : (!(disabled.contains b.1) && !(userIds.contains b.1)
          && b.2.extensions.contains ext
          && isServerInstalled env b.2.command) = false := by
        simp only [h1, Bool.not_true, Bool.false_and]
      simp only [List.find?_cons, hp]
    · have h1f : disabled.contains b.1 = false := by simpa using h1
      rw [if_neg h1]
      by_cases h2 : userIds.contains b.1 = true
      · rw [if_pos h2, ih]
        have hp : (!(disabled.contains b.1) && !(userIds.contains b.1)
            && b.2.extensions.contains ext
            && isServerInstalled env b.2.command) = false := by
          simp only [h2, Bool.not_true, Bool.and_false, Bool.false_and]
        simp only [List.find?_cons, hp]
      · have h2f : userIds.contains b.1 = false := by simpa using h2
        rw [if_neg h2]
        by_cases h3 : (b.2.extensions.contains ext
            && isServerInstalled env b.2.command) = true
        · rw [if_pos h3]
          have hp : (!(disabled.contains b.1) && !(userIds.contains b.1)
              && b.2.extensions.contains ext
              && isServerInstalled env b.2.command) = true := by
            simp only [h1f, h2f, Bool.not_false, Bool.true_and]
            exact h3
          simp only [List.find?_cons, hp, Option.map_some']
        · have h3f : (b.2.extensions.contains ext
              && isServerInstalled env b.2.command) = false := by simpa using h3
          rw [if_neg h3, ih]
          have hp : (!(disabled.contains b.1) && !(userIds.contains b.1)
              && b.2.extensions.contains ext
              && isServerInstalled env b.2.command) = false := by
            simp only [h1f, h2f, Bool.not_false, Bool.true_and]
            exact h3f
          simp only [List.find?_cons, hp]

/-- C7: server resolution tries user-defined servers before built-ins:
the result is the first user-configured server, in configuration order,
whose extension set contains the extension and whose command head is
installed (exists under some directory of the search path); otherwise
the first built-in, in table order, whose id is neither disabled by the
user configuration nor shadowed by a same-id user entry and which
matches the extension and is installed; and none at all (a not-found
result rather than a throw) when no installed server matches. -/
theorem findServerForExtension_spec (env : SysEnv)
    (cfg : List (String × OpencodeJsonLspEntry))
    (builtins : List (String × BuiltinServerConfig)) (ext : String) :
    findServerForExtension env cfg builtins ext
      = (match ((getUserLspServers cfg).map (fun e => e.2)).find?
            (fun s => s.extensions.contains ext
              && isServerInstalled env s.command) with
        | some s => some s
        | none =>
          (builtins.find? (fun b =>
              !((getDisabledServers cfg).contains b.1)
              && !(((getUserLspServers cfg).map (fun e => e.1)).contains b.1)
              && b.2.extensions.contains ext
              && isServerInstalled env b.2.command)).map
            (fun b => { id := b.1, command := b.2.command,
                        extensions := b.2.extensions })) := by
  rw [findServerForExtension]
  rw [firstUserServer_eq_find, firstBuiltinServer_eq_find]

end Lsp
